import Mathlib

/-!
# Verification of the switchy config-switching tool

Shallow embedding of the core of the `switchy` repository
(`src/config.rs` and `src/main.rs`): the config data model, the
state-transition operation `ConfigItem::set_current_state`, the TOML
persistence of `ConfigManager` (`read` / `write`), and the add, remove
and switch branches of `main_wrapper`.

Modelling conventions:
* Rust `String` becomes Lean `String`; `Vec<T>` becomes `List T`.
* The subprocess spawn in `set_current_state` is an oracle
  `spawn : String → Option Nat`: `none` means the process could not be
  started (the `?` operator propagates the error), `some code` means
  the process ran and exited with status `code`.  The code never
  inspects the status, mirroring the Rust source, which calls
  `.output()?` and discards the `Output` value.
* The filesystem seen by `ConfigManager` is modelled as
  `Option Toml`: `none` means `config.toml` does not exist, `some t`
  means the file exists and holds the TOML document `t`.  The text
  layer (`toml::to_string_pretty` / `toml::from_str`) belongs to the
  external `toml` crate; the repository's own contribution is the
  serde-derived mapping between `Config` and the TOML document tree,
  which is embedded here as `encodeConfig` / `decodeConfig`.
* Interactive input (the `dialoguer` prompts in `main.rs`) is an
  external collaborator per the spec; it is modelled by passing the
  values the user would enter as explicit arguments.
-/

namespace Switchy

/-- `struct ConfigCommandItemState { name, command }` from `src/config.rs`. -/
structure ConfigCommandItemState where
  name : String
  command : String
deriving DecidableEq, Repr

/-- `struct ConfigCommandItem { name, current, states }` from `src/config.rs`. -/
structure ConfigCommandItem where
  name : String
  current : String
  states : List ConfigCommandItemState
deriving DecidableEq, Repr

/-- `enum ConfigItem { CommandItem(ConfigCommandItem) }` from `src/config.rs`. -/
inductive ConfigItem where
  | CommandItem : ConfigCommandItem → ConfigItem
deriving DecidableEq, Repr

/-- `struct Config { items: Vec<ConfigItem> }` from `src/config.rs`. -/
structure Config where
  items : List ConfigItem
deriving DecidableEq, Repr

/-- `ConfigItem::get_name`. -/
def ConfigItem.get_name : ConfigItem → String
  | .CommandItem item => item.name

/-- `ConfigItem::get_current_state`. -/
def ConfigItem.get_current_state : ConfigItem → String
  | .CommandItem item => item.current

/-- `ConfigItem::get_state_names`. -/
def ConfigItem.get_state_names : ConfigItem → List String
  | .CommandItem item => item.states.map (fun state => state.name)

/-- Projection to the underlying state list (used to state frame properties;
the single variant makes this total). -/
def ConfigItem.get_states : ConfigItem → List ConfigCommandItemState
  | .CommandItem item => item.states

/-- Result of `ConfigItem::set_current_state`: the mutated item (the Rust
method mutates `self` in place), the list of commands passed to a spawned
subprocess (in order of invocation), and whether the method returned `Ok`. -/
structure TransitionResult where
  item : ConfigItem
  invoked : List String
  ok : Bool
deriving DecidableEq, Repr

/-- `ConfigItem::set_current_state` from `src/config.rs`.  The Rust code
first assigns `item.current = new_state`, then searches `item.states` for
the first state whose `name` equals `new_state`; if one is found its
`command` is run through `sh -c` (or `cmd /C`), and a spawn failure is
propagated with `?`.  The exit status of the subprocess is never
inspected.  `spawn cmd = none` models a spawn failure, `some code` a
process that ran and exited with status `code`. -/
def ConfigItem.set_current_state (spawn : String → Option Nat)
    (self : ConfigItem) (new_state : String) : TransitionResult :=
  match self with
  | .CommandItem item =>
    let item' : ConfigCommandItem := { item with current := new_state }
    match item.states.find? (fun state => state.name == new_state) with
    | some state =>
      { item := .CommandItem item'
        invoked := [state.command]
        ok := (spawn state.command).isSome }
    | none =>
      { item := .CommandItem item'
        invoked := []
        ok := true }

/-- `ConfigItem::get_type_string`. -/
def ConfigItem.get_type_string : ConfigItem → String
  | .CommandItem _ => "Command"

/-! ## TOML persistence

`ConfigManager::write` serializes `self.config` with
`toml::to_string_pretty` and `ConfigManager::read` parses the file with
`toml::from_str::<Config>`.  The document tree those serde derives
produce and consume is modelled by `Toml`; the serde-derived mapping for
this schema (`#[serde(tag = "type")]` on `ConfigItem`, plain field names
everywhere else) is `encodeConfig` / `decodeConfig`.  The decoder looks
fields up by key, so it is insensitive to field order and ignores
unknown keys, like serde's default deserializer. -/

/-- A TOML document tree restricted to the shapes this schema uses:
strings, arrays and tables. -/
inductive Toml where
  | str : String → Toml
  | arr : List Toml → Toml
  | table : List (String × Toml) → Toml
deriving Repr

/-- Key lookup in a TOML table (first binding wins). -/
def Toml.lookup (kvs : List (String × Toml)) (key : String) : Option Toml :=
  (kvs.find? (fun kv => kv.1 == key)).map (fun kv => kv.2)

/-- serde serialization of `ConfigCommandItemState`. -/
def encodeState (s : ConfigCommandItemState) : Toml :=
  .table [("name", .str s.name), ("command", .str s.command)]

/-- serde serialization of `ConfigItem`: internally tagged with
`type = "CommandItem"`, inner fields inlined. -/
def encodeItem : ConfigItem → Toml
  | .CommandItem item =>
    .table [("type", .str "CommandItem"),
            ("name", .str item.name),
            ("current", .str item.current),
            ("states", .arr (item.states.map encodeState))]

/-- serde serialization of `Config`. -/
def encodeConfig (c : Config) : Toml :=
  .table [("items", .arr (c.items.map encodeItem))]

/-- serde deserialization of a TOML string value. -/
def decodeString : Toml → Option String
  | .str s => some s
  | _ => none

/-- serde deserialization of `ConfigCommandItemState`. -/
def decodeState (t : Toml) : Option ConfigCommandItemState :=
  match t with
  | .table kvs =>
    match (Toml.lookup kvs "name").bind decodeString,
          (Toml.lookup kvs "command").bind decodeString with
    | some n, some c => some ⟨n, c⟩
    | _, _ => none
  | _ => none

/-- serde deserialization of a sequence of states. -/
def decodeStateList : List Toml → Option (List ConfigCommandItemState)
  | [] => some []
  | t :: ts =>
    match decodeState t, decodeStateList ts with
    | some s, some l => some (s :: l)
    | _, _ => none

/-- serde deserialization of `ConfigItem`: dispatches on the `type` tag. -/
def decodeItem (t : Toml) : Option ConfigItem :=
  match t with
  | .table kvs =>
    match (Toml.lookup kvs "type").bind decodeString with
    | some tag =>
      if tag = "CommandItem" then
        match (Toml.lookup kvs "name").bind decodeString,
              (Toml.lookup kvs "current").bind decodeString,
              Toml.lookup kvs "states" with
        | some n, some cur, some (.arr ts) =>
          match decodeStateList ts with
          | some states => some (.CommandItem ⟨n, cur, states⟩)
          | none => none
        | _, _, _ => none
      else none
    | none => none
  | _ => none

/-- serde deserialization of a sequence of items. -/
def decodeItemList : List Toml → Option (List ConfigItem)
  | [] => some []
  | t :: ts =>
    match decodeItem t, decodeItemList ts with
    | some item, some l => some (item :: l)
    | _, _ => none

/-- serde deserialization of `Config`. -/
def decodeConfig (t : Toml) : Option Config :=
  match t with
  | .table kvs =>
    match Toml.lookup kvs "items" with
    | some (.arr ts) => (decodeItemList ts).map (fun items => ⟨items⟩)
    | _ => none
  | _ => none

/-- `ConfigManager::get_default_config` from `src/config.rs`. -/
def get_default_config : Config := ⟨[]⟩

/-- `ConfigManager::write`: serialize `self.config` and write it to
`config.toml`.  Returns the new file contents. -/
def ConfigManager.write (config : Config) : Toml := encodeConfig config

/-- `ConfigManager::read` from `src/config.rs`.  `config` is the
manager's current config (`get_default_config` right after
`ConfigManager::new`); `file` is the contents of `config.toml`
(`none` when the file does not exist).  If the file exists it is parsed
(a parse failure is the propagated `toml` error, here `.error ()`) and
nothing is written; otherwise `self.write()` persists the current
config.  Returns the manager's config and the file contents after the
call.  Directory creation (`fs::create_dir_all`) and raw I/O failures
are filesystem plumbing outside this model. -/
def ConfigManager.read (config : Config) (file : Option Toml) :
    Except Unit (Config × Option Toml) :=
  match file with
  | some t =>
    match decodeConfig t with
    | some c => .ok (c, some t)
    | none => .error ()
  | none => .ok (config, some (ConfigManager.write config))

/-! ## The add, remove and switch branches of `main_wrapper`

The `dialoguer` prompts are the external interaction layer: the state
name/command pairs the user types during `--add` are passed as an
explicit list `entries` (the loop runs once unconditionally for the
default state and then once per confirmed repetition, so `entries`
lists every pair entered before the user declines to add another). -/

/-- The `bail!` failures of the add branch, plus the `states[0]` index
panic that an empty collected-state list would trigger (unreachable
through the interactive flow, which always collects at least one
state). -/
inductive AddError where
  | itemExists
  | emptyStateName
  | usedStateName
  | noDefaultState
deriving DecidableEq, Repr

/-- `str::trim`: remove leading and trailing whitespace.  Written by
structural recursion over the character list so that it evaluates by
kernel reduction. -/
def strTrim (s : String) : String :=
  ⟨((s.data.dropWhile Char.isWhitespace).reverse.dropWhile
      Char.isWhitespace).reverse⟩

/-- The state-collection loop of the add branch
(`src/main.rs` lines 65–97): each entered name is trimmed, an empty
name or a name already used within the new item aborts with `bail!`,
otherwise the trimmed name/command pair is pushed. -/
def collectStates (acc : List ConfigCommandItemState) :
    List (String × String) → Except AddError (List ConfigCommandItemState)
  | [] => .ok acc
  | (rawName, rawCommand) :: rest =>
    let name := strTrim rawName
    if name = "" then .error .emptyStateName
    else if acc.any (fun state => state.name == name) then
      .error .usedStateName
    else
      collectStates (acc ++ [⟨name, strTrim rawCommand⟩]) rest

/-- The `--add` branch of `main_wrapper` (`src/main.rs` lines 48–110):
bails if an item with the requested name already exists, collects the
states, builds a `CommandItem` whose `current` is `states[0].name`,
pushes it and persists.  Returns the config, the file contents and the
error (if any) after the branch. -/
def addBranch (config : Config) (file : Option Toml) (name : String)
    (entries : List (String × String)) :
    Config × Option Toml × Option AddError :=
  if config.items.any (fun item => item.get_name == name) then
    (config, file, some .itemExists)
  else
    match collectStates [] entries with
    | .error e => (config, file, some e)
    | .ok states =>
      match states with
      | [] => (config, file, some .noDefaultState)
      | first :: _ =>
        let item := ConfigItem.CommandItem ⟨name, first.name, states⟩
        let config' : Config := ⟨config.items ++ [item]⟩
        (config', some (ConfigManager.write config'), none)

/-- The `bail!` failure of the remove branch. -/
inductive RemoveError where
  | notFound
deriving DecidableEq, Repr

/-- `Vec::swap_remove`: replace the element at `i` with the last
element and pop the last element. -/
def swapRemove {α : Type} (l : List α) (i : Nat) : List α :=
  match l.getLast? with
  | none => l
  | some x => (l.set i x).dropLast

/-- The `--remove` branch of `main_wrapper` (`src/main.rs` lines
112–121): find the position of the item with the given name,
`swap_remove` it and persist; bail if no item has that name. -/
def removeBranch (config : Config) (file : Option Toml) (name : String) :
    Config × Option Toml × Option RemoveError :=
  match config.items.findIdx? (fun item => item.get_name == name) with
  | some index =>
    let config' : Config := ⟨swapRemove config.items index⟩
    (config', some (ConfigManager.write config'), none)
  | none => (config, file, some .notFound)

/-- The current-state lookup of the switch branch (`src/main.rs` line
168): `state_names.iter().position(|name| *name == current_state)`.
The Rust code calls `.unwrap()` on this; `none` here is exactly the
case in which that unwrap panics. -/
def current_state_index (item : ConfigItem) : Option Nat :=
  (item.get_state_names).findIdx? (fun name => name == item.get_current_state)

/-! ## Helper lemmas -/

theorem mem_state_names_iff (item : ConfigItem) (n : String) :
    n ∈ item.get_state_names ↔ ∃ s ∈ item.get_states, s.name = n := by
  cases item with
  | CommandItem it =>
    simp [ConfigItem.get_state_names, ConfigItem.get_states, List.mem_map,
      eq_comm]

theorem decodeState_encodeState (s : ConfigCommandItemState) :
    decodeState (encodeState s) = some s := rfl

theorem decodeStateList_encode (l : List ConfigCommandItemState) :
    decodeStateList (l.map encodeState) = some l := by
  induction l with
  | nil => rfl
  | cons s l ih => simp [decodeStateList, decodeState_encodeState, ih]

theorem decodeItem_encodeItem (item : ConfigItem) :
    decodeItem (encodeItem item) = some item := by
  cases item with
  | CommandItem it =>
    show (match decodeStateList (it.states.map encodeState) with
      | some states => some (ConfigItem.CommandItem ⟨it.name, it.current, states⟩)
      | none => none) = some (.CommandItem it)
    rw [decodeStateList_encode]

theorem decodeItemList_encode (l : List ConfigItem) :
    decodeItemList (l.map encodeItem) = some l := by
  induction l with
  | nil => rfl
  | cons item l ih => simp [decodeItemList, decodeItem_encodeItem, ih]

theorem decodeConfig_encodeConfig (c : Config) :
    decodeConfig (encodeConfig c) = some c := by
  show (decodeItemList (c.items.map encodeItem)).map (fun items => Config.mk items) =
    some c
  rw [decodeItemList_encode]
  rfl

/-! ## Claim theorems -/

/-- C1: calling `set_current_state` with a name present in the item's
state list sets `current` to that name and triggers exactly one
subprocess invocation using that state's command string; calling it
with a name absent from the state list still sets `current` to that
(unrecognized) value but triggers no subprocess invocation. -/
theorem transition_current_and_invocations (spawn : String → Option Nat)
    (item : ConfigItem) (n : String) :
    (item.set_current_state spawn n).item.get_current_state = n ∧
    (n ∈ item.get_state_names →
      ∃ s ∈ item.get_states, s.name = n ∧
        (item.set_current_state spawn n).invoked = [s.command]) ∧
    (n ∉ item.get_state_names →
      (item.set_current_state spawn n).invoked = []) := by
  cases item with
  | CommandItem it =>
    cases hfind : it.states.find? (fun state => state.name == n) with
    | some s =>
      have hs : s.name = n := by
        have := List.find?_some hfind
        simpa using this
      have hmem : s ∈ it.states := List.mem_of_find?_eq_some hfind
      refine ⟨?_, fun _ => ⟨s, hmem, hs, ?_⟩, fun hab => ?_⟩
      · simp [ConfigItem.set_current_state, hfind, ConfigItem.get_current_state]
      · simp [ConfigItem.set_current_state, hfind]
      · exact absurd ((mem_state_names_iff (.CommandItem it) n).mpr
          ⟨s, hmem, hs⟩) hab
    | none =>
      refine ⟨?_, fun hmem => ?_, fun _ => ?_⟩
      · simp [ConfigItem.set_current_state, hfind, ConfigItem.get_current_state]
      · obtain ⟨s, hmem', hs⟩ := (mem_state_names_iff (.CommandItem it) n).mp hmem
        have := List.find?_eq_none.mp hfind s hmem'
        simp [hs] at this
      · simp [ConfigItem.set_current_state, hfind]

/-- C1 witness: a concrete item with states `debug`/`release`; switching
to `release` runs exactly `echo r`, switching to the unknown name `zzz`
runs nothing, and `current` is updated in both cases. -/
theorem transition_current_and_invocations_witness :
    ((ConfigItem.CommandItem ⟨"build", "debug",
        [⟨"debug", "echo d"⟩, ⟨"release", "echo r"⟩]⟩).set_current_state
          (fun _ => some 0) "release").item.get_current_state = "release" ∧
    (∃ s ∈ (ConfigItem.CommandItem ⟨"build", "debug",
        [⟨"debug", "echo d"⟩, ⟨"release", "echo r"⟩]⟩ : ConfigItem).get_states,
      s.name = "release" ∧
        ((ConfigItem.CommandItem ⟨"build", "debug",
          [⟨"debug", "echo d"⟩, ⟨"release", "echo r"⟩]⟩).set_current_state
            (fun _ => some 0) "release").invoked = [s.command]) ∧
    ((ConfigItem.CommandItem ⟨"build", "debug",
        [⟨"debug", "echo d"⟩, ⟨"release", "echo r"⟩]⟩).set_current_state
          (fun _ => some 0) "zzz").invoked = [] := by
  refine ⟨(transition_current_and_invocations (fun _ => some 0) _ "release").1,
    (transition_current_and_invocations (fun _ => some 0) _ "release").2.1
      (by decide),
    (transition_current_and_invocations (fun _ => some 0) _ "zzz").2.2
      (by decide)⟩

/-- C8: `set_current_state` leaves the item's `name` and its whole
`states` list unchanged (regardless of whether the target name is
recognized and whether the spawn succeeds); only `current` is mutated,
to the target name.  The operation itself touches no file: persistence
is a separate call (`ConfigManager.write`) made by the caller. -/
theorem transition_frame (spawn : String → Option Nat) (item : ConfigItem)
    (n : String) :
    (item.set_current_state spawn n).item.get_name = item.get_name ∧
    (item.set_current_state spawn n).item.get_states = item.get_states ∧
    (item.set_current_state spawn n).item.get_current_state = n := by
  cases item with
  | CommandItem it =>
    cases hfind : it.states.find? (fun state => state.name == n) with
    | some s =>
      simp [ConfigItem.set_current_state, hfind, ConfigItem.get_name,
        ConfigItem.get_states, ConfigItem.get_current_state]
    | none =>
      simp [ConfigItem.set_current_state, hfind, ConfigItem.get_name,
        ConfigItem.get_states, ConfigItem.get_current_state]

/-- C3: `set_current_state` returns an error exactly when a state with
the target name exists and its command's subprocess cannot be started;
a subprocess that runs and exits with any status (non-zero included)
never fails the transition, and an unrecognized target name always
succeeds. -/
theorem transition_error_iff_spawn_failure (spawn : String → Option Nat)
    (item : ConfigItem) (n : String) :
    ((item.set_current_state spawn n).ok = false ↔
      ∃ s, item.get_states.find? (fun state => state.name == n) = some s ∧
        spawn s.command = none) ∧
    (∀ s code, item.get_states.find? (fun state => state.name == n) = some s →
      spawn s.command = some code → (item.set_current_state spawn n).ok = true) ∧
    (n ∉ item.get_state_names → (item.set_current_state spawn n).ok = true) := by
  cases item with
  | CommandItem it =>
    cases hfind : it.states.find? (fun state => state.name == n) with
    | some s =>
      refine ⟨?_, ?_, fun hab => ?_⟩
      · constructor
        · intro hok
          refine ⟨s, by simpa [ConfigItem.get_states] using hfind, ?_⟩
          simp [ConfigItem.set_current_state, hfind] at hok
          exact Option.not_isSome_iff_eq_none.mp (by simp [hok])
        · rintro ⟨s', hs', hnone⟩
          have : s' = s := by
            simp [ConfigItem.get_states] at hs'
            rw [hfind] at hs'
            exact (Option.some_inj.mp hs').symm
          subst this
          simp [ConfigItem.set_current_state, hfind, hnone]
      · intro s' code hs' hcode
        have : s' = s := by
          simp [ConfigItem.get_states] at hs'
          rw [hfind] at hs'
          exact (Option.some_inj.mp hs').symm
        subst this
        simp [ConfigItem.set_current_state, hfind, hcode]
      · exact absurd ((mem_state_names_iff (.CommandItem it) n).mpr
          ⟨s, List.mem_of_find?_eq_some hfind,
            by simpa using List.find?_some hfind⟩) hab
    | none =>
      refine ⟨?_, ?_, fun _ => ?_⟩
      · constructor
        · intro hok
          simp [ConfigItem.set_current_state, hfind] at hok
        · rintro ⟨s', hs', _⟩
          simp [ConfigItem.get_states] at hs'
          rw [hfind] at hs'
          exact absurd hs' (by simp)
      · intro s' code hs' _
        simp [ConfigItem.get_states] at hs'
        rw [hfind] at hs'
        exact absurd hs' (by simp)
      · simp [ConfigItem.set_current_state, hfind]

/-- C3 witness: with an oracle that cannot spawn, switching to `debug`
fails; with an oracle that reports exit status 1 (non-zero), the same
switch succeeds; switching to an unknown name succeeds even when
spawning is impossible. -/
theorem transition_error_iff_spawn_failure_witness :
    ((ConfigItem.CommandItem ⟨"build", "debug",
        [⟨"debug", "echo d"⟩]⟩).set_current_state
          (fun _ => none) "debug").ok = false ∧
    ((ConfigItem.CommandItem ⟨"build", "debug",
        [⟨"debug", "echo d"⟩]⟩).set_current_state
          (fun _ => some 1) "debug").ok = true ∧
    ((ConfigItem.CommandItem ⟨"build", "debug",
        [⟨"debug", "echo d"⟩]⟩).set_current_state
          (fun _ => none) "zzz").ok = true := by
  refine ⟨(transition_error_iff_spawn_failure (fun _ => none) _ "debug").1.mpr
      ⟨⟨"debug", "echo d"⟩, by decide, rfl⟩,
    (transition_error_iff_spawn_failure (fun _ => some 1) _ "debug").2.1
      ⟨"debug", "echo d"⟩ 1 (by decide) rfl,
    (transition_error_iff_spawn_failure (fun _ => none) _ "zzz").2.2
      (by decide)⟩

/-- C10: when the state list contains several states with the target
name, only the first matching state's command is invoked (exactly one
subprocess invocation); later states with the same name are never
executed. -/
theorem transition_first_match_only (spawn : String → Option Nat)
    (item : ConfigItem) (n : String)
    (l₁ l₂ : List ConfigCommandItemState) (s : ConfigCommandItemState)
    (hsplit : item.get_states = l₁ ++ s :: l₂)
    (hname : s.name = n)
    (hfirst : ∀ x ∈ l₁, x.name ≠ n) :
    (item.set_current_state spawn n).invoked = [s.command] := by
  cases item with
  | CommandItem it =>
    have hstates : it.states = l₁ ++ s :: l₂ := by
      simpa [ConfigItem.get_states] using hsplit
    have hfind : it.states.find? (fun state => state.name == n) = some s := by
      rw [hstates, List.find?_append]
      have h₁ : l₁.find? (fun state => state.name == n) = none :=
        List.find?_eq_none.mpr (fun x hx => by simp [hfirst x hx])
      have h₂ : (s :: l₂).find? (fun state => state.name == n) = some s :=
        List.find?_cons_of_pos _ (by simp [hname])
      rw [h₁, h₂]
      rfl
    simp [ConfigItem.set_current_state, hfind]

/-- C2: saving any Store and loading it back from the same directory
yields a Store equal to the original (hence identical item names,
current-state values and state lists, with item and state order
preserved): `ConfigManager.read` on a fresh manager whose file holds
`ConfigManager.write config` returns exactly `config`. -/
theorem save_load_roundtrip (config : Config) :
    ConfigManager.read get_default_config (some (ConfigManager.write config)) =
      .ok (config, some (ConfigManager.write config)) := by
  simp [ConfigManager.read, ConfigManager.write, decodeConfig_encodeConfig]

/-- C6: reading a directory with no config file yields the empty Store
(zero items) and immediately persists it, so afterwards the file exists
and holds the serialized empty Store; when the file does exist, a
successful read parses it (the resulting config is the decoded file)
and leaves the file untouched (no write). -/
theorem read_initializes_or_parses :
    (ConfigManager.read get_default_config none =
        .ok (get_default_config, some (ConfigManager.write get_default_config)) ∧
      get_default_config.items = []) ∧
    (∀ (t : Toml) (c : Config) (f : Option Toml),
      ConfigManager.read get_default_config (some t) = .ok (c, f) →
      decodeConfig t = some c ∧ f = some t) := by
  refine ⟨⟨rfl, rfl⟩, fun t c f h => ?_⟩
  simp only [ConfigManager.read] at h
  cases hdec : decodeConfig t with
  | some c' =>
    simp only [hdec] at h
    cases h
    exact ⟨rfl, rfl⟩
  | none =>
    simp only [hdec] at h
    simp at h

/-- C6 witness: reading a file holding the serialized empty Store
parses it back to the empty Store and does not write. -/
theorem read_initializes_or_parses_witness :
    decodeConfig (encodeConfig ⟨[]⟩) = some ⟨[]⟩ ∧
    (some (encodeConfig ⟨[]⟩) : Option Toml) = some (encodeConfig ⟨[]⟩) :=
  read_initializes_or_parses.2 (encodeConfig ⟨[]⟩) ⟨[]⟩
    (some (encodeConfig ⟨[]⟩)) rfl

theorem collectStates_ok_shape (entries : List (String × String)) :
    ∀ (acc sts : List ConfigCommandItemState),
    collectStates acc entries = .ok sts →
    sts = acc ++ entries.map
      (fun e => (⟨strTrim e.1, strTrim e.2⟩ : ConfigCommandItemState)) := by
  induction entries with
  | nil =>
    intro acc sts h
    cases h
    simp
  | cons e rest ih =>
    intro acc sts h
    obtain ⟨n, c⟩ := e
    simp only [collectStates] at h
    split at h
    · exact absurd h (by simp)
    · split at h
      · exact absurd h (by simp)
      · simpa [List.append_assoc] using ih _ _ h

theorem collectStates_ok_names (entries : List (String × String)) :
    ∀ (acc sts : List ConfigCommandItemState),
    (acc.map (fun s => s.name)).Nodup →
    collectStates acc entries = .ok sts →
    (acc.map (fun s => s.name) ++
      entries.map (fun e => strTrim e.1)).Nodup ∧
    ∀ e ∈ entries, strTrim e.1 ≠ "" := by
  induction entries with
  | nil =>
    intro acc sts hacc _
    simpa using hacc
  | cons e rest ih =>
    intro acc sts hacc h
    obtain ⟨n, c⟩ := e
    simp only [collectStates] at h
    split at h
    · exact absurd h (by simp)
    · split at h
      · exact absurd h (by simp)
      · rename_i hnonempty hfresh
        have hnotmem : strTrim n ∉ acc.map (fun s => s.name) := by
          intro hmem
          apply hfresh
          rw [List.mem_map] at hmem
          obtain ⟨s, hs, hsn⟩ := hmem
          exact List.any_eq_true.mpr ⟨s, hs, by simp [hsn]⟩
        have hacc' : ((acc ++ [(⟨strTrim n, strTrim c⟩ :
            ConfigCommandItemState)]).map (fun s => s.name)).Nodup := by
          simp only [List.map_append, List.map_cons, List.map_nil]
          rw [List.nodup_append]
          exact ⟨hacc, by simp, by simpa [List.disjoint_singleton] using hnotmem⟩
        have := ih _ _ hacc' h
        constructor
        · simpa [List.append_assoc] using this.1
        · intro e he
          rcases List.mem_cons.mp he with rfl | he'
          · exact hnonempty
          · exact this.2 e he'

/-- C4: the add operation fails, leaving the Store unmutated and
persisting nothing, whenever the requested item name already exists, or
some supplied state name is empty (after trimming), or the supplied
state names contain a duplicate. -/
theorem add_fails_without_mutation (config : Config) (file : Option Toml)
    (name : String) (entries : List (String × String))
    (hbad : config.items.any (fun item => item.get_name == name) = true ∨
      (∃ e ∈ entries, strTrim e.1 = "") ∨
      ¬ (entries.map (fun e => strTrim e.1)).Nodup) :
    ∃ err, addBranch config file name entries = (config, file, some err) := by
  unfold addBranch
  by_cases hex : config.items.any (fun item => item.get_name == name) = true
  · rw [if_pos hex]
    exact ⟨.itemExists, rfl⟩
  · rw [if_neg hex]
    cases hcol : collectStates [] entries with
    | error e => exact ⟨e, rfl⟩
    | ok sts =>
      have hnames := collectStates_ok_names entries [] sts (by simp) hcol
      rcases hbad with hbad | hbad | hbad
      · exact absurd hbad hex
      · obtain ⟨e, he, hempty⟩ := hbad
        exact absurd hempty (hnames.2 e he)
      · exact absurd (by simpa using hnames.1) hbad

/-- C4 witness: adding an item whose two supplied states are both named
`a` fails and leaves the empty Store and the absent file untouched. -/
theorem add_fails_without_mutation_witness :
    ∃ err, addBranch ⟨[]⟩ none "it" [("a", "x"), ("a", "y")] =
      (⟨[]⟩, none, some err) :=
  add_fails_without_mutation ⟨[]⟩ none "it" [("a", "x"), ("a", "y")]
    (Or.inr (Or.inr (by decide)))

/-- C5: a successful add appends exactly one item: its `current` is the
(trimmed) name of the first supplied state and its `states` list holds
the supplied states, trimmed, in the order they were supplied. -/
theorem add_success_shape (config : Config) (file : Option Toml)
    (name : String) (entries : List (String × String))
    (config' : Config) (file' : Option Toml)
    (h : addBranch config file name entries = (config', file', none)) :
    ∃ first rest, entries = first :: rest ∧
      config'.items = config.items ++
        [ConfigItem.CommandItem ⟨name, strTrim first.1,
          entries.map (fun e => ⟨strTrim e.1, strTrim e.2⟩)⟩] := by
  unfold addBranch at h
  split at h
  · exact absurd h (by simp)
  · cases hcol : collectStates [] entries with
    | error e =>
      rw [hcol] at h
      exact absurd h (by simp)
    | ok sts =>
      rw [hcol] at h
      have hshape := collectStates_ok_shape entries [] sts hcol
      simp only [List.nil_append] at hshape
      subst hshape
      cases hentries : entries with
      | nil =>
        rw [hentries] at h
        exact absurd h (by simp)
      | cons e1 erest =>
        rw [hentries] at h
        simp only [List.map_cons, Prod.mk.injEq] at h
        obtain ⟨hconfig, _, _⟩ := h
        exact ⟨e1, erest, rfl, by rw [← hconfig]; simp⟩

/-- C5 witness: adding to the empty Store with supplied states
`(a, x)` then `(b, y)` produces one item whose `current` is `a` and
whose states are `a`, `b` in order. -/
theorem add_success_shape_witness :
    ∃ first rest, [(("a" : String), ("x" : String)), ("b", "y")] = first :: rest ∧
      (⟨[ConfigItem.CommandItem ⟨"it", "a", [⟨"a", "x"⟩, ⟨"b", "y"⟩]⟩]⟩ :
          Config).items =
        (⟨[]⟩ : Config).items ++
          [ConfigItem.CommandItem ⟨"it", strTrim first.1,
            [(("a" : String), ("x" : String)), ("b", "y")].map
              (fun e => ⟨strTrim e.1, strTrim e.2⟩)⟩] :=
  add_success_shape ⟨[]⟩ none "it" [("a", "x"), ("b", "y")]
    ⟨[ConfigItem.CommandItem ⟨"it", "a", [⟨"a", "x"⟩, ⟨"b", "y"⟩]⟩]⟩
    (some (ConfigManager.write
      ⟨[ConfigItem.CommandItem ⟨"it", "a", [⟨"a", "x"⟩, ⟨"b", "y"⟩]⟩]⟩)) rfl

theorem swapRemove_length {α : Type} (l : List α) (i : Nat) (h : l ≠ []) :
    (swapRemove l i).length = l.length - 1 := by
  unfold swapRemove
  rw [List.getLast?_eq_getLast l h]
  simp

theorem swapRemove_map_not_mem {α β : Type} (f : α → β) (l : List α) (i : Nat)
    (hi : i < l.length) (hnd : (l.map f).Nodup) :
    f l[i] ∉ (swapRemove l i).map f := by
  have hne : l ≠ [] := List.ne_nil_of_length_pos (Nat.lt_of_le_of_lt (Nat.zero_le _) hi)
  intro hmem
  rw [List.mem_map] at hmem
  obtain ⟨a, ha, hfa⟩ := hmem
  unfold swapRemove at ha
  rw [List.getLast?_eq_getLast l hne] at ha
  rw [List.mem_iff_getElem] at ha
  obtain ⟨j, hj, hget⟩ := ha
  have hjl : j < l.length - 1 := by simpa using hj
  have hjl' : j < l.length := Nat.lt_of_lt_of_le hjl (Nat.sub_le _ _)
  rw [List.getElem_dropLast, List.getElem_set] at hget
  have hinj : ∀ (p q : Nat) (hp : p < l.length) (hq : q < l.length),
      f l[p] = f l[q] → p = q := by
    intro p q hp hq hpq
    have hp' : p < (l.map f).length := by simpa using hp
    have hq' : q < (l.map f).length := by simpa using hq
    have : (l.map f)[p] = (l.map f)[q] := by
      rw [List.getElem_map, List.getElem_map]
      exact hpq
    exact hnd.getElem_inj_iff.mp this
  by_cases hij : i = j
  · rw [if_pos hij] at hget
    have hlast : l.getLast hne = l[l.length - 1] := List.getLast_eq_getElem l hne
    rw [hlast] at hget
    have := hinj (l.length - 1) i (by omega) hi (by rw [hget, hfa])
    omega
  · rw [if_neg hij] at hget
    have := hinj j i hjl' hi (by rw [hget, hfa])
    omega

/-- C7: removing an existing item name (in a Store satisfying the
name-uniqueness invariant) succeeds, persists, shrinks the item count
by exactly one and makes that name unretrievable; removing a name not
present fails with an error and leaves the Store and the file
completely unchanged. -/
theorem remove_shrinks_or_fails (config : Config) (file : Option Toml)
    (name : String) :
    ((config.items.map ConfigItem.get_name).Nodup →
      name ∈ config.items.map ConfigItem.get_name →
      ∃ config', removeBranch config file name =
          (config', some (ConfigManager.write config'), none) ∧
        config'.items.length = config.items.length - 1 ∧
        name ∉ config'.items.map ConfigItem.get_name) ∧
    (name ∉ config.items.map ConfigItem.get_name →
      removeBranch config file name = (config, file, some .notFound)) := by
  constructor
  · intro hnd hmem
    have hex : ∃ item, item ∈ config.items ∧ (item.get_name == name) = true := by
      rw [List.mem_map] at hmem
      obtain ⟨item, hit, hn⟩ := hmem
      exact ⟨item, hit, by simp [hn]⟩
    have hfind := List.findIdx?_eq_some_of_exists hex
    obtain ⟨hlen, hp, -⟩ := List.findIdx?_eq_some_iff_getElem.mp hfind
    have hname : (config.items[config.items.findIdx
        (fun item => item.get_name == name)]).get_name = name := by
      simpa using hp
    have hne : config.items ≠ [] :=
      List.ne_nil_of_length_pos (Nat.lt_of_le_of_lt (Nat.zero_le _) hlen)
    refine ⟨⟨swapRemove config.items (config.items.findIdx
      (fun item => item.get_name == name))⟩, ?_, ?_, ?_⟩
    · unfold removeBranch
      rw [hfind]
    · exact swapRemove_length config.items _ hne
    · have := swapRemove_map_not_mem ConfigItem.get_name config.items
        (config.items.findIdx (fun item => item.get_name == name)) hlen hnd
      rw [hname] at this
      exact this
  · intro hmem
    have hnone : config.items.findIdx? (fun item => item.get_name == name) = none := by
      rw [List.findIdx?_eq_none_iff]
      intro item hit
      by_contra hcon
      apply hmem
      rw [List.mem_map]
      exact ⟨item, hit, by simpa using hcon⟩
    unfold removeBranch
    rw [hnone]

/-- C7 witness: removing `a` from the one-item Store named `a` empties
it, and removing `z` from that Store fails and changes nothing. -/
theorem remove_shrinks_or_fails_witness :
    (∃ config', removeBranch ⟨[.CommandItem ⟨"a", "x", [⟨"x", "c"⟩]⟩]⟩ none "a" =
        (config', some (ConfigManager.write config'), none) ∧
      config'.items.length =
        (⟨[.CommandItem ⟨"a", "x", [⟨"x", "c"⟩]⟩]⟩ : Config).items.length - 1 ∧
      "a" ∉ config'.items.map ConfigItem.get_name) ∧
    removeBranch ⟨[.CommandItem ⟨"a", "x", [⟨"x", "c"⟩]⟩]⟩ none "z" =
      (⟨[.CommandItem ⟨"a", "x", [⟨"x", "c"⟩]⟩]⟩, none, some .notFound) :=
  ⟨(remove_shrinks_or_fails ⟨[.CommandItem ⟨"a", "x", [⟨"x", "c"⟩]⟩]⟩ none "a").1
      (by decide) (by decide),
    (remove_shrinks_or_fails ⟨[.CommandItem ⟨"a", "x", [⟨"x", "c"⟩]⟩]⟩ none "z").2
      (by decide)⟩

/-- C9: the switch flow's lookup of the current state's index
(`state_names.iter().position(...).unwrap()`) succeeds exactly when the
item's `current` equals the name of some state in its `states` list;
when that precondition is violated the lookup yields `none` and the
`unwrap` panics instead of returning an error. -/
theorem current_state_index_isSome_iff (item : ConfigItem) :
    (current_state_index item).isSome = true ↔
      item.get_current_state ∈ item.get_state_names := by
  rw [current_state_index, List.findIdx?_isSome, List.any_eq_true]
  constructor
  · rintro ⟨x, hx, hp⟩
    have : x = item.get_current_state := by simpa using hp
    rwa [this] at hx
  · intro h
    exact ⟨item.get_current_state, h, by simp⟩

/-- C10 witness: an item with two states both named `a`; switching to
`a` runs only the first one's command. -/
theorem transition_first_match_only_witness :
    ((ConfigItem.CommandItem ⟨"dup", "a",
        [⟨"a", "first"⟩, ⟨"a", "second"⟩]⟩).set_current_state
          (fun _ => some 0) "a").invoked = ["first"] :=
  transition_first_match_only (fun _ => some 0) _ "a"
    [] [⟨"a", "second"⟩] ⟨"a", "first"⟩ rfl rfl (by decide)

end Switchy
